import Mathlib

/-!
Shallow embedding of the oddio audio rendering core.

Floats (f32/f64) are embedded as exact rationals; the float-specific
operations the code uses (trunc, fract, the remainder operator, the
saturating float-to-usize cast) are embedded explicitly with the same
rounding direction they have in Rust.
-/

namespace Oddio

/-- Truncation toward zero on rationals, as performed by trunc on
f32/f64 and by as-casts from floats to signed integers. -/
def rtruncZ (q : ℚ) : ℤ := if 0 ≤ q then ⌊q⌋ else ⌈q⌉

/-- The fract method of f32/f64: q minus its truncation toward zero,
hence negative for negative non-integer q. -/
def rfract (q : ℚ) : ℚ := q - rtruncZ q

/-- The remainder operator on floats: a - b * trunc(a / b), taking the
sign of the dividend. -/
def rmod (a b : ℚ) : ℚ := a - b * rtruncZ (a / b)

/-- The saturating float-to-usize cast (negative values clamp to 0). -/
def toUsize (q : ℚ) : ℕ := (rtruncZ q).toNat

/-- Modelled from the spec: the external Frame capability (the frame
module is not among these sources). A frame is one sample value with
zero value 0, and frame lerp is linear interpolation between two frames
weighted by t. -/
def lerp (a b t : ℚ) : ℚ := a + t * (b - a)

/-- A sequence of static audio frames at a particular sample rate
(frames.rs). The single-allocation header plus payload layout is a
non-observable optimization; the header always holds the exact value of
the u32 rate passed at construction, so the rate is embedded as a
natural number. -/
structure Frames where
  rate : ℕ
  samples : List ℚ
deriving DecidableEq

/-- Frames construction from existing memory: the buffer holds the given
samples in order (frames.rs, from_slice). -/
def Frames.from_slice (rate : ℕ) (samples : List ℚ) : Frames :=
  ⟨rate, samples⟩

/-- Frames construction from a size-declaring generator (frames.rs,
from_iter). The generator is embedded as the declared length together
with the list of elements it actually yields; the assertion that the
yielded count equals the declared length becomes the error case. -/
def Frames.from_iter (rate : ℕ) (declaredLen : ℕ) (yielded : List ℚ) :
    Except String Frames :=
  if yielded.length = declaredLen then Except.ok ⟨rate, yielded⟩
  else Except.error "iterator returned incorrect length"

/-- Bounds-checked sample lookup (frames.rs, get): indices below 0 or at
or past the length yield the zero frame. -/
def Frames.get (f : Frames) (sample : ℤ) : ℚ :=
  if sample < 0 then 0
  else if f.samples.length ≤ sample.toNat then 0
  else f.samples.getD sample.toNat 0

/-- Interpolate a frame for position s in samples (frames.rs,
interpolate): x0 = s.trunc() as isize, fract = s.fract(), x1 = x0 + 1,
lerp of the two looked-up frames weighted by fract. -/
def Frames.interpolate (f : Frames) (s : ℚ) : ℚ :=
  let x0 := rtruncZ s
  let t := rfract s
  let x1 := x0 + 1
  lerp (f.get x0) (f.get x1) t

/-- Definition following the spec's own wording of the interpolation
rule, for comparison with the code's Frames.interpolate: a = floor of
the position, b = a + 1, w = the (nonnegative) fractional part, lookups
with the zero boundary rule, linear interpolation weighted by w. -/
def Frames.interpolateSpec (f : Frames) (p : ℚ) : ℚ :=
  let a := ⌊p⌋
  let b := a + 1
  let w := p - ⌊p⌋
  lerp (f.get a) (f.get b) w

/-- Loops Frames end to end to construct a repeating signal (cycle.rs):
a playback cursor in samples plus the shared frames. -/
structure Cycle where
  cursor : ℚ
  frames : Frames
deriving DecidableEq

namespace Cycle

/-- Construct a cycle from frames (cycle.rs, new): cursor starts at 0. -/
def new (frames : Frames) : Cycle := ⟨0, frames⟩

/-- Interpolate a frame for position sample (cycle.rs, interpolate):
a = sample as usize, b = (a + 1) mod len, lerp of frames[a] and
frames[b] weighted by sample.fract(). The direct index frames[a] (and
the mod by len) is fallible, so the embedding returns none when a is
out of bounds (which also covers an empty buffer). -/
def interpolate (frames : Frames) (sample : ℚ) : Option ℚ :=
  let a := toUsize sample
  if a < frames.samples.length then
    let b := (a + 1) % frames.samples.length
    some (lerp (frames.samples.getD a 0) (frames.samples.getD b 0) (rfract sample))
  else none

/-- The per-slot loop of Cycle sample (cycle.rs, sample): for each slot,
write the interpolated frame at the cursor, then set the cursor to
(cursor + ds) mod len. Returns the output slots and the final cursor. -/
def sampleGo (frames : Frames) (ds : ℚ) (cursor : ℚ) : ℕ → Option (List ℚ × ℚ)
  | 0 => some ([], cursor)
  | n + 1 =>
    match interpolate frames cursor with
    | none => none
    | some x =>
      match sampleGo frames ds (rmod (cursor + ds) (frames.samples.length : ℚ)) n with
      | none => none
      | some (rest, c) => some (x :: rest, c)

/-- Cycle sample (cycle.rs, sample): ds = interval * rate, then the
per-slot loop over an output of n slots. -/
def sample (c : Cycle) (interval : ℚ) (n : ℕ) : Option (List ℚ × Cycle) :=
  match sampleGo c.frames (interval * (c.frames.rate : ℚ)) c.cursor n with
  | none => none
  | some (out, cur) => some (out, ⟨cur, c.frames⟩)

/-- A run of consecutive sample calls with the same interval, given as a
list of per-call output lengths, threading the cursor across calls and
concatenating the outputs. -/
def sampleCalls (frames : Frames) (ds : ℚ) (cursor : ℚ) : List ℕ → Option (List ℚ × ℚ)
  | [] => some ([], cursor)
  | n :: ns =>
    match sampleGo frames ds cursor n with
    | none => none
    | some (o, c) =>
      match sampleCalls frames ds c ns with
      | none => none
      | some (o2, c2) => some (o ++ o2, c2)

/-- A run of consecutive sample calls with possibly different intervals,
given as (interval, output length) pairs, threading the cursor. -/
def sampleSeq (frames : Frames) (cursor : ℚ) : List (ℚ × ℕ) → Option (List ℚ × ℚ)
  | [] => some ([], cursor)
  | (dt, n) :: rest =>
    match sampleGo frames (dt * (frames.rate : ℚ)) cursor n with
    | none => none
    | some (o, c) =>
      match sampleSeq frames c rest with
      | none => none
      | some (o2, c2) => some (o ++ o2, c2)

end Cycle

/-- An audio signal backed by a static sequence of samples (frames.rs,
FramesSignal): the shared frames plus the playback position in seconds. -/
structure FramesSignal where
  data : Frames
  t : ℚ
deriving DecidableEq

namespace FramesSignal

/-- Create an audio signal from some samples at a start position
(frames.rs, new). -/
def new (data : Frames) (start_seconds : ℚ) : FramesSignal :=
  ⟨data, start_seconds⟩

/-- The slot-filling loop of FramesSignal sample: slot at index i gets
the frame interpolated at s0 + ds * i. -/
def sampleGo (data : Frames) (s0 ds : ℚ) : ℕ → ℕ → List ℚ
  | _, 0 => []
  | i, k + 1 => data.interpolate (s0 + ds * (i : ℚ)) :: sampleGo data s0 ds (i + 1) k

/-- FramesSignal sample (frames.rs, sample): s0 = t * rate,
ds = interval * rate, fill the n slots, then advance t by interval * n. -/
def sample (sig : FramesSignal) (interval : ℚ) (n : ℕ) : List ℚ × FramesSignal :=
  (sampleGo sig.data (sig.t * (sig.data.rate : ℚ)) (interval * (sig.data.rate : ℚ)) 0 n,
   ⟨sig.data, sig.t + interval * (n : ℚ)⟩)

/-- FramesSignal remaining (frames.rs, remaining): buffer length divided
by rate, minus the playback position. (The narrowing of the result to
f32 is the identity in this exact-arithmetic embedding.) -/
def remaining (sig : FramesSignal) : ℚ :=
  (sig.data.samples.length : ℚ) / (sig.data.rate : ℚ) - sig.t

end FramesSignal

/-- The three lifecycle state words of Stop (stop.rs). -/
def PLAY : ℕ := 0

/-- Paused state word (stop.rs). -/
def PAUSE : ℕ := 1

/-- Stopped state word (stop.rs). -/
def STOP : ℕ := 2

/-- A source that can be paused or permanently stopped (stop.rs): a
state word plus the inner signal. The atomic state cell is embedded as a
plain field; control-handle operations act on the same state word, so
they are embedded as functions on Stop itself. -/
structure Stop (σ : Type) where
  state : ℕ
  inner : σ
deriving DecidableEq

namespace Stop

/-- Stop construction (stop.rs, new): initial state is PLAY. -/
def new {σ : Type} (signal : σ) : Stop σ := ⟨PLAY, signal⟩

/-- stop (stop.rs, Stop and StopControl): store STOP. -/
def stop {σ : Type} (s : Stop σ) : Stop σ := { s with state := STOP }

/-- pause (stop.rs, StopControl): store PAUSE. -/
def pause {σ : Type} (s : Stop σ) : Stop σ := { s with state := PAUSE }

/-- resume (stop.rs, StopControl): store PLAY. -/
def resume {σ : Type} (s : Stop σ) : Stop σ := { s with state := PLAY }

/-- is_paused (stop.rs): whether the state word equals PAUSE. -/
def isPaused {σ : Type} (s : Stop σ) : Bool := s.state == PAUSE

/-- is_stopped (stop.rs): whether the state word equals STOP. -/
def isStopped {σ : Type} (s : Stop σ) : Bool := s.state == STOP

/-- Stop sample (stop.rs, Signal for Stop): delegate to the inner
signal's sample. The inner signal is embedded abstractly as a state type
σ with a sampling function f from state, interval and slot count to
output and new state. -/
def sample {σ : Type} (f : σ → ℚ → ℕ → List ℚ × σ) (s : Stop σ)
    (interval : ℚ) (n : ℕ) : List ℚ × Stop σ :=
  let r := f s.inner interval n
  (r.1, ⟨s.state, r.2⟩)

end Stop

end Oddio

namespace Oddio

section Lemmas

lemma rtruncZ_of_nonneg {q : ℚ} (h : 0 ≤ q) : rtruncZ q = ⌊q⌋ := if_pos h

lemma rtruncZ_of_neg {q : ℚ} (h : ¬ 0 ≤ q) : rtruncZ q = ⌈q⌉ := if_neg h

lemma rmod_mem_Ico {a b : ℚ} (ha : 0 ≤ a) (hb : 0 < b) :
    0 ≤ rmod a b ∧ rmod a b < b := by
  have hdiv : (0 : ℚ) ≤ a / b := div_nonneg ha hb.le
  have hb0 : b ≠ 0 := ne_of_gt hb
  have hfr : a - b * (⌊a / b⌋ : ℚ) = b * Int.fract (a / b) := by
    rw [Int.fract]
    field_simp
  rw [rmod, rtruncZ_of_nonneg hdiv, hfr]
  constructor
  · exact mul_nonneg hb.le (Int.fract_nonneg _)
  · calc b * Int.fract (a / b) < b * 1 :=
          mul_lt_mul_of_pos_left (Int.fract_lt_one _) hb
    _ = b := mul_one b

lemma lerp_zero_zero (t : ℚ) : lerp 0 0 t = 0 := by simp [lerp]

end Lemmas

/-- Claim C1 counterexample: for a concrete Stop instance, stop()
followed by resume() makes is_stopped() report false again, refuting
that the Stopped state is terminal. -/
theorem c1_stopped_not_terminal_counterexample :
    Stop.isStopped (Stop.resume (Stop.stop (Stop.new (0 : ℚ)))) = false := rfl

/-- Claim C1 (amended): stop() sets the state so that is_stopped()
returns true, but both resume() and pause() unconditionally overwrite
the state word, so a subsequent resume() or pause() on a stopped
instance makes is_stopped() return false: Stopped is not terminal. -/
theorem c1_stop_state_transitions :
    ∀ (σ : Type) (s s2 : Stop σ),
      Stop.isStopped (Stop.stop s) = true ∧
      Stop.isStopped (Stop.resume s2) = false ∧
      Stop.isStopped (Stop.pause s2) = false :=
  fun _ _ _ => ⟨rfl, rfl, rfl⟩

/-- Claim C8: Stop's sample produces exactly the output and
inner-signal state change of calling the inner signal's sample
directly, for every lifecycle state word, and leaves the lifecycle
state word unchanged. -/
theorem c8_stop_sample_delegates :
    ∀ (σ : Type) (f : σ → ℚ → ℕ → List ℚ × σ) (s : Stop σ) (dt : ℚ) (n : ℕ),
      (Stop.sample f s dt n).1 = (f s.inner dt n).1 ∧
      (Stop.sample f s dt n).2.inner = (f s.inner dt n).2 ∧
      (Stop.sample f s dt n).2.state = s.state :=
  fun _ _ _ _ _ => ⟨rfl, rfl, rfl⟩

/-- Claim C9: constructing Frames from a size-declaring generator fails
(with the length-mismatch assertion message) when the yielded count
differs from the declared length, and succeeds with exactly the yielded
elements in order when the counts agree. -/
theorem c9_from_iter_length_check :
    ∀ (rate declaredLen : ℕ) (yielded : List ℚ),
      (yielded.length ≠ declaredLen →
        Frames.from_iter rate declaredLen yielded =
          Except.error "iterator returned incorrect length") ∧
      (yielded.length = declaredLen →
        Frames.from_iter rate declaredLen yielded =
          Except.ok ⟨rate, yielded⟩) := by
  intro rate declaredLen yielded
  constructor
  · intro h
    simp [Frames.from_iter, h]
  · intro h
    simp [Frames.from_iter, h]

/-- Witness for C9 at concrete inputs: declared length 3 with 2 yielded
elements errors; declared length 2 with the same elements succeeds. -/
theorem c9_from_iter_length_check_witness :
    ([ (1 : ℚ), 2 ].length ≠ 3 ∧
      Frames.from_iter 44100 3 [(1 : ℚ), 2] =
        Except.error "iterator returned incorrect length") ∧
    ([ (1 : ℚ), 2 ].length = 2 ∧
      Frames.from_iter 44100 2 [(1 : ℚ), 2] =
        Except.ok ⟨44100, [(1 : ℚ), 2]⟩) :=
  ⟨⟨by decide, (c9_from_iter_length_check 44100 3 [(1 : ℚ), 2]).1 (by decide)⟩,
   ⟨rfl, (c9_from_iter_length_check 44100 2 [(1 : ℚ), 2]).2 rfl⟩⟩

/-- Claim C7: FramesSignal remaining always equals buffer length over
rate minus the playback position, without clamping; in particular once
the position has advanced past the buffer's end the value is negative,
not zero. (The narrowing to f32 is the identity in this exact
embedding.) -/
theorem c7_remaining_unclamped :
    ∀ (data : Frames) (t : ℚ),
      FramesSignal.remaining ⟨data, t⟩ =
        (data.samples.length : ℚ) / (data.rate : ℚ) - t ∧
      ((data.samples.length : ℚ) / (data.rate : ℚ) < t →
        FramesSignal.remaining ⟨data, t⟩ < 0) := by
  intro data t
  refine ⟨rfl, ?_⟩
  intro h
  simpa [FramesSignal.remaining] using sub_neg.mpr h

/-- Witness for C7: a 3-sample buffer at rate 1 (duration 3 s) at
position 5 s is past the end and remaining is negative. -/
theorem c7_remaining_unclamped_witness :
    ((((Frames.from_slice 1 [1, 2, 3]).samples.length : ℚ) /
        ((Frames.from_slice 1 [1, 2, 3]).rate : ℚ) < 5) ∧
      FramesSignal.remaining ⟨Frames.from_slice 1 [1, 2, 3], 5⟩ < 0) :=
  ⟨by norm_num [Frames.from_slice], (c7_remaining_unclamped (Frames.from_slice 1 [1, 2, 3]) 5).2
    (by norm_num [Frames.from_slice])⟩

lemma get_of_length_le {f : Frames} {z : ℤ} (h : (f.samples.length : ℤ) ≤ z) :
    f.get z = 0 := by
  unfold Frames.get
  rw [if_neg (by omega), if_pos (by omega)]

lemma get_of_neg {f : Frames} {z : ℤ} (h : z < 0) : f.get z = 0 := by
  unfold Frames.get
  rw [if_pos h]

/-- Claim C2 counterexample: on the buffer [1, 2, 3], interpolate at
position -0.5 returns 3/2 - 1 = 1/2, not the zero frame: truncation
toward zero looks up index 0 with the negative weight -0.5. -/
theorem c2_counterexample :
    (Frames.from_slice 1 [1, 2, 3]).interpolate (-(1/2) : ℚ) ≠ 0 := by
  have h : rtruncZ (-(1/2) : ℚ) = 0 := by norm_num [rtruncZ]
  norm_num [Frames.interpolate, Frames.get, Frames.from_slice, rfract, lerp, h]

/-- Claim C2 (amended): interpolate at position length + 0.5 returns the
zero frame, and positions at or below -2 return the zero frame; but at
position -0.5 the zero-frame property fails (see the counterexample),
because truncation toward zero makes positions in (-2, 0) blend stored
frames with negative weights. -/
theorem c2_boundary_silence_amended :
    ∀ (f : Frames) (s : ℚ), 1 ≤ f.samples.length →
      f.interpolate ((f.samples.length : ℚ) + 1/2) = 0 ∧
      (s ≤ -2 → f.interpolate s = 0) := by
  intro f s _hlen
  constructor
  · have h0 : (0 : ℚ) ≤ (f.samples.length : ℚ) + 1/2 := by positivity
    have hfl : ⌊(f.samples.length : ℚ) + 1/2⌋ = (f.samples.length : ℤ) := by
      rw [Int.floor_eq_iff]
      constructor
      · push_cast
        linarith
      · push_cast
        linarith
    simp only [Frames.interpolate, rtruncZ_of_nonneg h0, hfl]
    rw [get_of_length_le (le_refl _), get_of_length_le (by omega), lerp_zero_zero]
  · intro hs
    have hneg : ¬ (0 : ℚ) ≤ s := by linarith
    have hceil : ⌈s⌉ ≤ -2 := Int.ceil_le.mpr (by exact_mod_cast hs)
    simp only [Frames.interpolate, rtruncZ_of_neg hneg]
    rw [get_of_neg (by omega), get_of_neg (by omega), lerp_zero_zero]

/-- Witness for the amended C2 on the buffer [1, 2, 3]: silence at
position length + 0.5 and at position -5. -/
theorem c2_boundary_silence_amended_witness :
    (1 ≤ (Frames.from_slice 1 [1, 2, 3]).samples.length ∧ ((-5 : ℚ) ≤ -2)) ∧
    ((Frames.from_slice 1 [1, 2, 3]).interpolate
        (((Frames.from_slice 1 [1, 2, 3]).samples.length : ℚ) + 1/2) = 0 ∧
      (Frames.from_slice 1 [1, 2, 3]).interpolate (-5) = 0) :=
  ⟨⟨by norm_num [Frames.from_slice], by norm_num⟩,
   ⟨(c2_boundary_silence_amended (Frames.from_slice 1 [1, 2, 3]) (-5)
       (by norm_num [Frames.from_slice])).1,
    (c2_boundary_silence_amended (Frames.from_slice 1 [1, 2, 3]) (-5)
       (by norm_num [Frames.from_slice])).2 (by norm_num)⟩⟩

/-- Claim C3 counterexample: on the one-frame buffer [1], interpolate at
position -0.5 returns 3/2 (truncation toward zero and a negative
fractional weight), while the spec's floor-based rule returns 1/2. -/
theorem c3_counterexample :
    (Frames.from_slice 1 [1]).interpolate (-(1/2) : ℚ) ≠
      (Frames.from_slice 1 [1]).interpolateSpec (-(1/2) : ℚ) := by
  have h : rtruncZ (-(1/2) : ℚ) = 0 := by norm_num [rtruncZ]
  have hfl : ⌊(-(1/2) : ℚ)⌋ = -1 := by norm_num
  norm_num [Frames.interpolate, Frames.interpolateSpec, Frames.get,
    Frames.from_slice, rfract, lerp, h, hfl]

/-- Claim C3 (amended): for every non-negative fractional position p,
interpolate(p) equals the spec's floor-based linear interpolation rule
with zero-extension at the boundaries; for negative non-integer
positions the code truncates toward zero and uses the signed fractional
part, so the floor rule fails there (see the counterexample). -/
theorem c3_interpolate_floor_rule_amended :
    ∀ (f : Frames) (p : ℚ), 0 ≤ p → f.interpolate p = f.interpolateSpec p := by
  intro f p hp
  simp only [Frames.interpolate, Frames.interpolateSpec, rfract, rtruncZ_of_nonneg hp]

/-- Witness for the amended C3 on the buffer [1, 2, 3] at position 3/2. -/
theorem c3_interpolate_floor_rule_amended_witness :
    (0 ≤ (3/2 : ℚ)) ∧
    (Frames.from_slice 1 [1, 2, 3]).interpolate (3/2) =
      (Frames.from_slice 1 [1, 2, 3]).interpolateSpec (3/2) :=
  ⟨by norm_num,
   c3_interpolate_floor_rule_amended (Frames.from_slice 1 [1, 2, 3]) (3/2) (by norm_num)⟩

lemma interpolate_of_lt {frames : Frames} {c : ℚ} (h0 : 0 ≤ c)
    (hlt : c < (frames.samples.length : ℚ)) :
    Cycle.interpolate frames c =
      some (lerp (frames.samples.getD ⌊c⌋.toNat 0)
        (frames.samples.getD ((⌊c⌋.toNat + 1) % frames.samples.length) 0)
        (c - (⌊c⌋ : ℚ))) := by
  have hfl0 : (0 : ℤ) ≤ ⌊c⌋ := Int.floor_nonneg.mpr h0
  have hflt : ⌊c⌋ < (frames.samples.length : ℤ) :=
    Int.floor_lt.mpr (by exact_mod_cast hlt)
  have hlt2 : ⌊c⌋.toNat < frames.samples.length := by omega
  simp [Cycle.interpolate, toUsize, rtruncZ_of_nonneg h0, rfract, hlt2]

lemma sampleGo_total {frames : Frames} {ds : ℚ} (hne : frames.samples ≠ [])
    (hds : 0 ≤ ds) :
    ∀ (n : ℕ) (cur : ℚ), 0 ≤ cur → cur < (frames.samples.length : ℚ) →
      ∃ out c2, Cycle.sampleGo frames ds cur n = some (out, c2) ∧
        0 ≤ c2 ∧ c2 < (frames.samples.length : ℚ) := by
  intro n
  induction n with
  | zero =>
    intro cur h0 h1
    exact ⟨[], cur, rfl, h0, h1⟩
  | succ n ih =>
    intro cur h0 h1
    have hlen : (0 : ℚ) < (frames.samples.length : ℚ) := by
      have := List.length_pos.mpr hne
      exact_mod_cast this
    have hmod := rmod_mem_Ico (add_nonneg h0 hds) hlen
    obtain ⟨out, c2, heq, hc0, hc1⟩ :=
      ih (rmod (cur + ds) (frames.samples.length : ℚ)) hmod.1 hmod.2
    have heq2 : Cycle.sampleGo frames ds cur (n + 1) =
        some (lerp (frames.samples.getD ⌊cur⌋.toNat 0)
          (frames.samples.getD ((⌊cur⌋.toNat + 1) % frames.samples.length) 0)
          (cur - (⌊cur⌋ : ℚ)) :: out, c2) := by
      simp only [Cycle.sampleGo, interpolate_of_lt h0 h1, heq]
    exact ⟨_, c2, heq2, hc0, hc1⟩

lemma sampleGo_succ_eq (frames : Frames) (ds cur : ℚ) (n : ℕ) :
    Cycle.sampleGo frames ds cur (n + 1) =
      (Cycle.interpolate frames cur).bind (fun x =>
        (Cycle.sampleGo frames ds (rmod (cur + ds) (frames.samples.length : ℚ)) n).map
          (fun p => (x :: p.1, p.2))) := by
  cases hi : Cycle.interpolate frames cur with
  | none => simp [Cycle.sampleGo, hi]
  | some x =>
    cases h1 : Cycle.sampleGo frames ds
        (rmod (cur + ds) (frames.samples.length : ℚ)) n with
    | none => simp [Cycle.sampleGo, hi, h1]
    | some p =>
      obtain ⟨o, c⟩ := p
      simp [Cycle.sampleGo, hi, h1]

lemma sampleSeq_cons_eq (frames : Frames) (cur dt : ℚ) (n : ℕ)
    (rest : List (ℚ × ℕ)) :
    Cycle.sampleSeq frames cur ((dt, n) :: rest) =
      (Cycle.sampleGo frames (dt * (frames.rate : ℚ)) cur n).bind (fun p =>
        (Cycle.sampleSeq frames p.2 rest).map (fun q => (p.1 ++ q.1, q.2))) := by
  cases h1 : Cycle.sampleGo frames (dt * (frames.rate : ℚ)) cur n with
  | none => simp [Cycle.sampleSeq, h1]
  | some p =>
    obtain ⟨o, c⟩ := p
    cases h2 : Cycle.sampleSeq frames c rest with
    | none => simp [Cycle.sampleSeq, h1, h2]
    | some q =>
      obtain ⟨o2, c2⟩ := q
      simp [Cycle.sampleSeq, h1, h2]

lemma sampleGo_add {frames : Frames} {ds : ℚ} :
    ∀ (n m : ℕ) (cur : ℚ),
      Cycle.sampleGo frames ds cur (n + m) =
        (Cycle.sampleGo frames ds cur n).bind (fun p =>
          (Cycle.sampleGo frames ds p.2 m).map (fun q => (p.1 ++ q.1, q.2))) := by
  intro n
  induction n with
  | zero =>
    intro m cur
    rw [Nat.zero_add]
    cases h : Cycle.sampleGo frames ds cur m with
    | none => simp [Cycle.sampleGo, h]
    | some q => simp [Cycle.sampleGo, h]
  | succ n ih =>
    intro m cur
    rw [Nat.succ_add, sampleGo_succ_eq, sampleGo_succ_eq, ih]
    cases hi : Cycle.interpolate frames cur with
    | none => simp
    | some x =>
      simp only [Option.some_bind]
      cases h1 : Cycle.sampleGo frames ds
          (rmod (cur + ds) (frames.samples.length : ℚ)) n with
      | none => simp
      | some p =>
        simp only [Option.map_some, Option.some_bind]
        cases h2 : Cycle.sampleGo frames ds p.2 m with
        | none => simp [h2]
        | some q => simp [h2]

/-- Claim C4: for a Cycle over a non-empty buffer and a positive
interval, splitting a total output across consecutive sample calls with
the same interval (given as the list of per-call output lengths)
produces exactly the concatenated output and final cursor of a single
call producing all the frames: cursor state carries exactly across
calls. -/
theorem c4_cycle_split_invariance :
    ∀ (frames : Frames) (dt cur : ℚ) (splits : List ℕ),
      frames.samples ≠ [] → 0 < dt → 2 ≤ splits.length →
      Cycle.sampleSeq frames cur (splits.map fun n => (dt, n)) =
        Cycle.sampleGo frames (dt * (frames.rate : ℚ)) cur splits.sum := by
  intro frames dt cur splits hne hdt hlen2
  clear hne hdt hlen2
  induction splits generalizing cur with
  | nil => rfl
  | cons n ns ih =>
    rw [List.map_cons, sampleSeq_cons_eq, List.sum_cons, sampleGo_add]
    cases h : Cycle.sampleGo frames (dt * (frames.rate : ℚ)) cur n with
    | none => rfl
    | some p => simp [ih]

/-- Witness for C4: the buffer [1, 2, 3] at rate 1, unit interval, five
output frames split as two calls of 2 and 3 frames (the repository's
own wrap_multi test shape). -/
theorem c4_cycle_split_invariance_witness :
    ((Frames.from_slice 1 [1, 2, 3]).samples ≠ [] ∧ (0 : ℚ) < 1 ∧
      2 ≤ [2, 3].length) ∧
    Cycle.sampleSeq (Frames.from_slice 1 [1, 2, 3]) 0
        ([2, 3].map fun n => ((1 : ℚ), n)) =
      Cycle.sampleGo (Frames.from_slice 1 [1, 2, 3])
        (1 * (((Frames.from_slice 1 [1, 2, 3]).rate : ℕ) : ℚ)) 0 [2, 3].sum :=
  ⟨⟨by simp [Frames.from_slice], by norm_num, by norm_num⟩,
   c4_cycle_split_invariance (Frames.from_slice 1 [1, 2, 3]) 1 0 [2, 3]
     (by simp [Frames.from_slice]) (by norm_num) (by norm_num)⟩

/-- Claim C10: for a Cycle over a non-empty buffer, the cursor is 0 at
construction; each per-slot advance (taking the cursor modulo the
buffer length) maps a cursor in [0, length) to a cursor in [0, length)
whenever the step is non-negative; and any sequence of sample calls
with non-negative intervals therefore succeeds (every direct index
lookup in Cycle's interpolate is in bounds, so no call returns none)
and leaves the cursor in [0, length). -/
theorem c10_cycle_cursor_invariant :
    ∀ (frames : Frames) (calls : List (ℚ × ℕ)),
      frames.samples ≠ [] →
      (∀ p ∈ calls, 0 ≤ p.1) →
      (Cycle.new frames).cursor = 0 ∧
      (∀ cur ds : ℚ, 0 ≤ cur → cur < (frames.samples.length : ℚ) → 0 ≤ ds →
        0 ≤ rmod (cur + ds) (frames.samples.length : ℚ) ∧
        rmod (cur + ds) (frames.samples.length : ℚ) < (frames.samples.length : ℚ)) ∧
      (∀ cur : ℚ, 0 ≤ cur → cur < (frames.samples.length : ℚ) →
        ∃ out c2, Cycle.sampleSeq frames cur calls = some (out, c2) ∧
          0 ≤ c2 ∧ c2 < (frames.samples.length : ℚ)) := by
  intro frames calls hne hnn
  have hlen : (0 : ℚ) < (frames.samples.length : ℚ) := by
    have := List.length_pos.mpr hne
    exact_mod_cast this
  refine ⟨rfl, ?_, ?_⟩
  · intro cur ds h0 _h1 hds
    exact rmod_mem_Ico (add_nonneg h0 hds) hlen
  · have key : ∀ (cs : List (ℚ × ℕ)), (∀ p ∈ cs, 0 ≤ p.1) →
        ∀ cur : ℚ, 0 ≤ cur → cur < (frames.samples.length : ℚ) →
        ∃ out c2, Cycle.sampleSeq frames cur cs = some (out, c2) ∧
          0 ≤ c2 ∧ c2 < (frames.samples.length : ℚ) := by
      intro cs
      induction cs with
      | nil =>
        intro _hcs cur h0 h1
        exact ⟨[], cur, rfl, h0, h1⟩
      | cons p rest ih =>
        intro hcs cur h0 h1
        obtain ⟨dt, n⟩ := p
        have hdt : (0 : ℚ) ≤ dt := hcs (dt, n) (by simp)
        have hds : (0 : ℚ) ≤ dt * (frames.rate : ℚ) :=
          mul_nonneg hdt (by positivity)
        obtain ⟨o, c, hgo, hc0, hc1⟩ := sampleGo_total hne hds n cur h0 h1
        obtain ⟨o2, c2, hseq, hc20, hc21⟩ :=
          ih (fun q hq => hcs q (List.mem_cons_of_mem _ hq)) c hc0 hc1
        refine ⟨o ++ o2, c2, ?_, hc20, hc21⟩
        simp [sampleSeq_cons_eq, hgo, hseq]
    exact key calls hnn

/-- Witness for C10: buffer [1, 2, 3], two calls of 2 and 3 frames at
unit interval, starting from the fresh cursor 0. -/
theorem c10_cycle_cursor_invariant_witness :
    ((Frames.from_slice 1 [1, 2, 3]).samples ≠ [] ∧
      (∀ p ∈ [((1 : ℚ), 2), ((1 : ℚ), 3)], 0 ≤ p.1) ∧
      (0 : ℚ) ≤ 0 ∧
      (0 : ℚ) < ((Frames.from_slice 1 [1, 2, 3]).samples.length : ℚ)) ∧
    (∃ out c2,
      Cycle.sampleSeq (Frames.from_slice 1 [1, 2, 3]) 0 [((1 : ℚ), 2), ((1 : ℚ), 3)] =
        some (out, c2) ∧ 0 ≤ c2 ∧
        c2 < ((Frames.from_slice 1 [1, 2, 3]).samples.length : ℚ)) :=
  ⟨⟨by simp [Frames.from_slice],
    by intro p hp; fin_cases hp <;> norm_num,
    le_refl 0,
    by norm_num [Frames.from_slice]⟩,
   (c10_cycle_cursor_invariant (Frames.from_slice 1 [1, 2, 3])
      [((1 : ℚ), 2), ((1 : ℚ), 3)]
      (by simp [Frames.from_slice])
      (by intro p hp; fin_cases hp <;> norm_num)).2.2 0 (le_refl 0)
      (by norm_num [Frames.from_slice])⟩

/-- Claim C5: Cycle's per-slot rule: for a cursor in [0, length), one
sample step writes the frame interpolated at the cursor with the
wrap-aware neighbor rule (neighbor index (floor(cursor) + 1) mod
length, so the loop point blends the last stored frame with the first)
and then sets the cursor to (cursor + interval * rate) mod length; and
in particular a fresh Cycle over a 3-frame buffer at rate 1 sampled
with unit interval for 5 frames yields [frame0, frame1, frame2,
frame0, frame1]. -/
theorem c5_cycle_wrap_rule :
    (∀ (frames : Frames) (cur dt : ℚ),
      0 ≤ cur → cur < (frames.samples.length : ℚ) →
      Cycle.sample ⟨cur, frames⟩ dt 1 =
        some ([lerp (frames.samples.getD ⌊cur⌋.toNat 0)
            (frames.samples.getD ((⌊cur⌋.toNat + 1) % frames.samples.length) 0)
            (cur - (⌊cur⌋ : ℚ))],
          ⟨rmod (cur + dt * (frames.rate : ℚ)) (frames.samples.length : ℚ),
            frames⟩)) ∧
    (∀ f0 f1 f2 : ℚ,
      Cycle.sample (Cycle.new (Frames.from_slice 1 [f0, f1, f2])) 1 5 =
        some ([f0, f1, f2, f0, f1], ⟨2, Frames.from_slice 1 [f0, f1, f2]⟩)) := by
  constructor
  · intro frames cur dt h0 h1
    simp only [Cycle.sample, Cycle.sampleGo, interpolate_of_lt h0 h1]
  · intro f0 f1 f2
    have hr : (Frames.from_slice 1 [f0, f1, f2]).rate = 1 := rfl
    have hs : (Frames.from_slice 1 [f0, f1, f2]).samples = [f0, f1, f2] := rfl
    have hi0 : Cycle.interpolate (Frames.from_slice 1 [f0, f1, f2]) 0 = some f0 := by
      norm_num [Cycle.interpolate, toUsize, rtruncZ, rfract, lerp, hs]
    have hi1 : Cycle.interpolate (Frames.from_slice 1 [f0, f1, f2]) 1 = some f1 := by
      norm_num [Cycle.interpolate, toUsize, rtruncZ, rfract, lerp, hs]
    have hi2 : Cycle.interpolate (Frames.from_slice 1 [f0, f1, f2]) 2 = some f2 := by
      have htn : (2 : ℤ).toNat = 2 := rfl
      norm_num [Cycle.interpolate, toUsize, rtruncZ, rfract, lerp, hs, htn]
    have hm1 : rmod (1 : ℚ) 3 = 1 := by norm_num [rmod, rtruncZ]
    have hm2 : rmod (2 : ℚ) 3 = 2 := by norm_num [rmod, rtruncZ]
    have hm3 : rmod (3 : ℚ) 3 = 0 := by norm_num [rmod, rtruncZ]
    norm_num [Cycle.sample, Cycle.new, Cycle.sampleGo, hr, hs,
      hi0, hi1, hi2, hm1, hm2, hm3]

/-- Witness for the universally quantified part of C5: the buffer
[1, 2, 3] at cursor 1/2 with unit interval. -/
theorem c5_cycle_wrap_rule_witness :
    ((0 : ℚ) ≤ 1/2 ∧
      (1/2 : ℚ) < ((Frames.from_slice 1 [1, 2, 3]).samples.length : ℚ)) ∧
    Cycle.sample ⟨1/2, Frames.from_slice 1 [1, 2, 3]⟩ 1 1 =
      some ([lerp ((Frames.from_slice 1 [1, 2, 3]).samples.getD ⌊(1/2 : ℚ)⌋.toNat 0)
          ((Frames.from_slice 1 [1, 2, 3]).samples.getD
            ((⌊(1/2 : ℚ)⌋.toNat + 1) % (Frames.from_slice 1 [1, 2, 3]).samples.length) 0)
          ((1/2 : ℚ) - (⌊(1/2 : ℚ)⌋ : ℚ))],
        ⟨rmod ((1/2 : ℚ) + 1 * ((Frames.from_slice 1 [1, 2, 3]).rate : ℚ))
            ((Frames.from_slice 1 [1, 2, 3]).samples.length : ℚ),
          Frames.from_slice 1 [1, 2, 3]⟩) :=
  ⟨⟨by norm_num, by norm_num [Frames.from_slice]⟩,
   c5_cycle_wrap_rule.1 (Frames.from_slice 1 [1, 2, 3]) (1/2) 1
     (by norm_num) (by norm_num [Frames.from_slice])⟩

lemma fs_sampleGo_length (data : Frames) (s0 ds : ℚ) :
    ∀ (k j : ℕ), (FramesSignal.sampleGo data s0 ds j k).length = k := by
  intro k
  induction k with
  | zero => intro j; rfl
  | succ k ih =>
    intro j
    simp [FramesSignal.sampleGo, ih]

lemma fs_sampleGo_get (data : Frames) (s0 ds : ℚ) :
    ∀ (k j i : ℕ), i < k →
      (FramesSignal.sampleGo data s0 ds j k).get? i =
        some (data.interpolate (s0 + ds * ((j : ℚ) + (i : ℚ)))) := by
  intro k
  induction k with
  | zero =>
    intro j i h
    exact absurd h (by omega)
  | succ k ih =>
    intro j i hi
    cases i with
    | zero =>
      simp [FramesSignal.sampleGo]
    | succ i =>
      have hi2 : i < k := by omega
      have hcast : (((j + 1 : ℕ)) : ℚ) + (i : ℚ) = (j : ℚ) + (((i + 1 : ℕ)) : ℚ) := by
        push_cast
        ring
      simp only [FramesSignal.sampleGo, List.get?_cons_succ]
      rw [ih (j + 1) i hi2, hcast]

/-- Claim C6: FramesSignal sample with interval dt and an output of n
slots writes, for each 0-based slot i, the buffer interpolated at
s0 + step * i where s0 = t * rate and step = dt * rate (with the
buffer's zero-extension rule), and afterwards increases the playback
position by exactly dt * n. -/
theorem c6_frames_signal_sample :
    ∀ (data : Frames) (t dt : ℚ) (n : ℕ),
      (FramesSignal.sample ⟨data, t⟩ dt n).1.length = n ∧
      (∀ i : ℕ, i < n →
        (FramesSignal.sample ⟨data, t⟩ dt n).1.get? i =
          some (data.interpolate
            (t * (data.rate : ℚ) + dt * (data.rate : ℚ) * (i : ℚ)))) ∧
      (FramesSignal.sample ⟨data, t⟩ dt n).2.t = t + dt * (n : ℚ) := by
  intro data t dt n
  refine ⟨fs_sampleGo_length data _ _ n 0, ?_, rfl⟩
  intro i hi
  have h := fs_sampleGo_get data (t * (data.rate : ℚ)) (dt * (data.rate : ℚ)) n 0 i hi
  simpa [FramesSignal.sample] using h

/-- Witness for C6: buffer [1, 2, 3] at rate 1, position 0, unit
interval, two output slots, checking slot 1 and the advanced position. -/
theorem c6_frames_signal_sample_witness :
    (1 < 2) ∧
    ((FramesSignal.sample ⟨Frames.from_slice 1 [1, 2, 3], 0⟩ 1 2).1.length = 2 ∧
      (FramesSignal.sample ⟨Frames.from_slice 1 [1, 2, 3], 0⟩ 1 2).1.get? 1 =
        some ((Frames.from_slice 1 [1, 2, 3]).interpolate
          (0 * (((Frames.from_slice 1 [1, 2, 3]).rate : ℕ) : ℚ) +
            1 * (((Frames.from_slice 1 [1, 2, 3]).rate : ℕ) : ℚ) * ((1 : ℕ) : ℚ))) ∧
      (FramesSignal.sample ⟨Frames.from_slice 1 [1, 2, 3], 0⟩ 1 2).2.t =
        0 + 1 * ((2 : ℕ) : ℚ)) :=
  ⟨by norm_num,
   (c6_frames_signal_sample (Frames.from_slice 1 [1, 2, 3]) 0 1 2).1,
   (c6_frames_signal_sample (Frames.from_slice 1 [1, 2, 3]) 0 1 2).2.1 1 (by norm_num),
   (c6_frames_signal_sample (Frames.from_slice 1 [1, 2, 3]) 0 1 2).2.2⟩

end Oddio
